import Mathlib

/-!
Verification of the SPV header-chain engine in lib/blockchain.py
(class BlockchainVerifier).

The embedding below translates the Python source line by line.  Python
arbitrary-precision integers become Nat (or Int where a value can be
negative), Python dictionaries holding header fields become the
structure Header, a raised exception becomes Option.none, and the
double-SHA-256 primitive (defined in lib/bitcoin.py, outside src/) is a
parameter of every definition that hashes.
-/

/-- In-memory header record: the six codec fields plus the optional
derived block_height carried by peer-supplied records
(header_from_string never sets it, peer records per spec section 6 do).
Hash fields prev_block_hash and merkle_root are represented by the
numeric value of their 64-digit display-order hex string. -/
structure Header where
  version : Nat
  prev_block_hash : Nat
  merkle_root : Nat
  timestamp : Nat
  bits : Nat
  nonce : Nat
  block_height : Option Nat
deriving DecidableEq, Repr

/-- Value of a byte list read little-endian (least significant byte first). -/
def fromLE : List Nat → Nat
  | [] => 0
  | b :: rest => b + 256 * fromLE rest

/-- The n little-endian base-256 digits of v (v is reduced mod 256 ^ n). -/
def toLE : Nat → Nat → List Nat
  | 0, _ => []
  | n + 1, v => v % 256 :: toLE n (v / 256)

/-- Modelled from the spec: int_to_hex and rev_hex live in
lib/bitcoin.py, which is not under src/.  Per spec sections 3 and 4.A,
header_to_string writes version, timestamp, bits and nonce as 4-byte
little-endian unsigned integers and the two hash fields in reversed
byte order relative to their display form; since a hash field is
modelled by the numeric value of its display hex, its internal bytes
are exactly the little-endian digits of that value.  This is the
80-byte serialization produced by header_to_string (blockchain.py
lines 234-241); out-of-range field values (which would make the Python
hex string longer than 80 bytes) are outside the modelled domain and
are excluded by HeaderWF below. -/
def header_to_bytes (h : Header) : List Nat :=
  toLE 4 h.version ++ toLE 32 h.prev_block_hash ++ toLE 32 h.merkle_root ++
    toLE 4 h.timestamp ++ toLE 4 h.bits ++ toLE 4 h.nonce

/-- Field ranges under which the 80-byte serialization is faithful
(spec section 3: u32 fields, 32-byte hashes). -/
def HeaderWF (h : Header) : Prop :=
  h.version < 2 ^ 32 ∧ h.prev_block_hash < 2 ^ 256 ∧ h.merkle_root < 2 ^ 256 ∧
    h.timestamp < 2 ^ 32 ∧ h.bits < 2 ^ 32 ∧ h.nonce < 2 ^ 32

instance (h : Header) : Decidable (HeaderWF h) := by
  unfold HeaderWF; infer_instance

/-- The helper hex_to_int of header_from_string (line 245): the value of
the bytes read little-endian.  On an empty slice the Python code
evaluates the two-character literal 0x, which raises SyntaxError, hence
none. -/
def hex_to_int (l : List Nat) : Option Nat :=
  if l.isEmpty then none else some (fromLE l)

/-- header_from_string (blockchain.py lines 244-253).  The Python code
slices the input without any length check; a slice that is empty makes
hex_to_int raise (none here).  hash_encode (lib/bitcoin.py, modelled
from the spec) reverses the bytes and hex-encodes them, so the numeric
value of the resulting display string is again the little-endian value
of the raw bytes.  The returned record has no block_height entry. -/
def header_from_string (s : List Nat) : Option Header :=
  match hex_to_int (s.take 4), hex_to_int ((s.drop 68).take 4),
      hex_to_int ((s.drop 72).take 4), hex_to_int ((s.drop 76).take 4) with
  | some v, some ts, some bi, some no =>
      some { version := v
             prev_block_hash := fromLE ((s.drop 4).take 32)
             merkle_root := fromLE ((s.drop 36).take 32)
             timestamp := ts
             bits := bi
             nonce := no
             block_height := none }
  | _, _, _, _ => none

/-- hash_header (blockchain.py lines 255-256) with the double-SHA-256
primitive Hash (lib/bitcoin.py, not under src/) abstracted as a
parameter mapping the 80 serialized bytes to the 32 digest bytes.
rev_hex of the hex encoding turns the digest bytes into display order,
so the numeric value of the display string is the little-endian value
of the digest bytes. -/
def hash_header_val (Ha : List Nat → List Nat) (h : Header) : Nat :=
  fromLE (Ha (header_to_bytes h))

/-- The maximum target constant of get_target (blockchain.py line 318). -/
def maxTarget : Nat :=
  0x00000000FFFF0000000000000000000000000000000000000000000000000000

/-- The bits-to-target block of get_target (blockchain.py lines
331-335): a = bits mod 256^3, doubled-by-256 below 0x8000, times
2 ^ (8 * (bits div 256^3 - 3)) with the exponent an integer that can
be negative.  When the exponent is negative Python pow returns a float;
both the power of two and the product with a < 2^24 are exactly
representable in binary64, so the value computed by the source is
exactly this rational, written here with an explicit case split on the
sign of the exponent so that it evaluates. -/
def bits_to_target_code (bits : Nat) : ℚ :=
  let MM : Nat := 256 * 256 * 256
  let a : Nat := bits % MM
  let a : Nat := if a < 0x8000 then a * 256 else a
  if 3 ≤ bits / MM then ((a * 2 ^ (8 * (bits / MM - 3)) : Nat) : ℚ)
  else (a : ℚ) / ((2 ^ (8 * (3 - bits / MM)) : Nat) : ℚ)

/-- The legacy mapping exactly as the spec words it (section 4.A,
legacy quirk note): a = bits mod 2^24; if a < 0x8000 then a times 256;
target = a * 2 ^ (8 * (floor (bits / 2^24) - 3)). -/
def bits_to_target_legacy_spec (bits : Nat) : ℚ :=
  let a : Nat := bits % 2 ^ 24
  let a : Nat := if a < 0x8000 then a * 256 else a
  (a : ℚ) * (2 : ℚ) ^ ((8 : ℤ) * ((bits / 2 ^ 24 : Nat) - 3 : ℤ))

/-- The canonical bits-to-target operation as the spec words it in
section 4.A (and as claim C3 states it): exponent = bits >> 24,
mantissa = bits AND 0x007fffff, invalid (NegativeTarget) whenever the
0x00800000 sign bit of bits is set, result mantissa * 256^(exponent-3)
capped at 2^256 - 1. -/
def bits_to_target_canonical_spec (bits : Nat) : Option ℚ :=
  let exponent : Nat := bits >>> 24
  let mantissa : Nat := bits &&& 0x007fffff
  if bits &&& 0x00800000 ≠ 0 then none
  else some (min ((mantissa : ℚ) * (256 : ℚ) ^ ((exponent : ℤ) - 3))
    ((2 : ℚ) ^ (256 : ℕ) - 1))

/-- Natural-number form of the bits-to-target block of get_target,
valid when the exponent bits div 2^24 is at least 3 (the only case in
which get_target reaches its return statement; below 3 the Python value
is a float and the later percent-format raises). -/
def bits_to_target_nat (bits : Nat) : Nat :=
  let a : Nat := bits % (256 * 256 * 256)
  let a : Nat := if a < 0x8000 then a * 256 else a
  a * 2 ^ (8 * (bits / (256 * 256 * 256) - 3))

/-- Number of base-256 digits of t, computed with explicit fuel so that
it reduces by evaluation; correct whenever t < 256 ^ fuel. -/
def byteLen : Nat → Nat → Nat
  | 0, _ => 0
  | fuel + 1, t => if t = 0 then 0 else byteLen fuel (t / 256) + 1

/-- The target-to-bits block of get_target (blockchain.py lines
341-352) for a target below 2^256.  The source formats the target as
64 upper-case hex digits, drops the first two (hence t mod 2^248),
strips leading 00 byte pairs while decrementing i from 31, takes the
top three remaining bytes as the mantissa c, divides c by 256 and
increments i when c exceeds 0x800000 strictly, and returns
c + 2^24 * i.  When every byte is stripped (t mod 2^248 = 0) the
source evaluates an empty hex literal, which raises, hence none. -/
def target_to_bits (t : Nat) : Option Nat :=
  let tl : Nat := t % 2 ^ 248
  if tl = 0 then none
  else
    let k : Nat := byteLen 31 tl
    let c : Nat := if 3 ≤ k then tl / 256 ^ (k - 3) else tl
    let ci : Nat × Nat := if 0x800000 < c then (c / 256, k + 1) else (c, k)
    some (ci.1 + 2 ^ 24 * ci.2)

/-- get_target (blockchain.py lines 316-353).  read is read_header over
the current store.  The timestamp difference is computed over ℤ exactly
as Python computes it over unbounded integers; after the max/min clamp
it lies in [302400, 4838400], so the Python floor division of the
product by 1209600 is Nat division, written here via Int.toNat.
Outcomes that make the source raise before returning are none: a
missing boundary header (AttributeError on None.get), an exponent below
3 (the target becomes a Python float and the percent-X format of
new_target raises TypeError), and a zero new_target (empty hex literal
inside the bits conversion). -/
def get_target (read : Nat → Option Header) (index : Nat) :
    Option (Nat × Nat) :=
  if index = 0 then some (0x1d00ffff, maxTarget)
  else
    match read ((index - 1) * 2016), read (index * 2016 - 1) with
    | some first, some last =>
        let nActualTimespan : ℤ := (last.timestamp : ℤ) - (first.timestamp : ℤ)
        let nTargetTimespan : ℤ := 14 * 24 * 60 * 60
        let nActualTimespan : ℤ := max nActualTimespan (nTargetTimespan / 4)
        let nActualTimespan : ℤ := min nActualTimespan (nTargetTimespan * 4)
        let bits := last.bits
        if bits / (256 * 256 * 256) < 3 then none
        else
          let target : Nat := bits_to_target_nat bits
          let newTarget : Nat :=
            min maxTarget (target * nActualTimespan.toNat / 1209600)
          match target_to_bits newTarget with
          | some newBits => some (newBits, newTarget)
          | none => none
    | _, _ => none

/-- Loop body of verify_chain (blockchain.py lines 150-166) threading
the previous header.  A record without block_height makes the source
divide None by 2016 (TypeError, outside the try block), and an
exception escaping get_target also propagates: both are none.  The
three assert statements sit inside a bare try/except returning False. -/
def verify_chain_go (read : Nat → Option Header) (Ha : List Nat → List Nat) :
    Header → List Header → Option Bool
  | _, [] => some true
  | prev, h :: rest =>
    match h.block_height with
    | none => none
    | some ht =>
      match get_target read (ht / 2016) with
      | none => none
      | some (bits, target) =>
        if hash_header_val Ha prev = h.prev_block_hash ∧ bits = h.bits ∧
            hash_header_val Ha h < target
        then verify_chain_go read Ha h rest
        else some false

/-- verify_chain (blockchain.py lines 145-166).  On an empty chain the
source indexes chain[0] and raises; if the first height is 0 the source
seeks to byte -80 and raises; if the predecessor read returns None the
source hashes None (AttributeError, outside the try) and raises: all
none. -/
def verify_chain (read : Nat → Option Header) (Ha : List Nat → List Nat)
    (chain : List Header) : Option Bool :=
  match chain with
  | [] => none
  | h0 :: _ =>
    match h0.block_height with
    | none => none
    | some ht =>
      if ht = 0 then none
      else
        match read (ht - 1) with
        | none => none
        | some prev => verify_chain_go read Ha prev chain

/-- The conditions verify_chain checks, as a proposition threading the
predecessor: for each header an epoch target pair exists, the link hash
matches, the bits equal the expected epoch bits, and the hash value is
below the expected epoch target (the full-precision value returned by
get_target). -/
def chain_ok (read : Nat → Option Header) (Ha : List Nat → List Nat) :
    Header → List Header → Prop
  | _, [] => True
  | prev, h :: rest => ∃ ht bits target,
      h.block_height = some ht ∧
      get_target read (ht / 2016) = some (bits, target) ∧
      hash_header_val Ha prev = h.prev_block_hash ∧ h.bits = bits ∧
      hash_header_val Ha h < target ∧ chain_ok read Ha h rest

/-- The per-header conditions exactly as claim C5 words them, with
condition three comparing the hash against the target decoded from the
bits field of the header itself (bits_to_target of h.bits), rather than
against the full-precision epoch target. -/
def claim_c5_check (read : Nat → Option Header) (Ha : List Nat → List Nat) :
    Header → List Header → Bool
  | _, [] => true
  | prev, h :: rest =>
    match h.block_height with
    | none => false
    | some ht =>
      match get_target read (ht / 2016) with
      | none => false
      | some (bits, _) =>
        decide (hash_header_val Ha prev = h.prev_block_hash) &&
        decide (bits = h.bits) &&
        decide ((hash_header_val Ha h : ℚ) < bits_to_target_code h.bits) &&
        claim_c5_check read Ha h rest

/-- Mutable state of the verifier relevant to the store: the bytes of
the blockchain_headers file and the two height attributes
(local_height, derived from the file size, and height, also assigned
directly by the run loop). -/
structure VState where
  file : List Nat
  local_height : ℤ
  height : ℤ
deriving DecidableEq, Repr

/-- Writing data at byte offset off of a file opened rb+: bytes before
off are kept, a seek past the end pads with zero bytes, bytes after the
written region are kept. -/
def write_at (file : List Nat) (off : Nat) (data : List Nat) : List Nat :=
  file.take off ++ List.replicate (off - file.length) 0 ++ data ++
    file.drop (off + data.length)

/-- set_local_height (blockchain.py lines 295-301) for an existing
store file: h = filesize / 80 - 1 (Python floor division of the
non-negative size, then minus one over the integers); both height
attributes are reassigned only when h differs from local_height. -/
def set_local_height (st : VState) : VState :=
  let h : ℤ := ((st.file.length / 80 : Nat) : ℤ) - 1
  if st.local_height ≠ h then { st with local_height := h, height := h }
  else st

/-- save_header (blockchain.py lines 283-292): serialize (always 80
bytes for the modelled field ranges, so the length assert passes), seek
to height * 80, write, then set_local_height.  A record without
block_height makes the source multiply None by 80 (TypeError): none. -/
def save_header (st : VState) (h : Header) : Option VState :=
  match h.block_height with
  | none => none
  | some ht =>
      some (set_local_height
        { st with file := write_at st.file (ht * 80) (header_to_bytes h) })

/-- read_header (blockchain.py lines 304-313) over the file bytes:
take the 80 bytes at offset height * 80 and decode them only when the
read returned a full 80 bytes, else None. -/
def read_file (file : List Nat) (height : Nat) : Option Header :=
  let s := (file.drop (height * 80)).take 80
  if s.length = 80 then header_from_string s else none

/-- One iteration of the run loop of the extender (blockchain.py lines
368-389) after get_chain returned: header is the candidate tip, chain
is none when get_chain gave an inconsistent result.  In Python 2 a
missing block_height makes None compare below every integer, so the
iteration is a no-op.  When verify_chain succeeds, save_header is
applied to the chain elements in list order and self.height is assigned
the candidate height (the assignment sits inside the loop; its final
value is the candidate height).  When verify_chain returns False
nothing is written.  When verify_chain raises, or a chain element lacks
block_height, the exception escapes the loop: none. -/
def run_step (Ha : List Nat → List Nat) (st : VState) (cand : Header)
    (chain : Option (List Header)) : Option VState :=
  match cand.block_height with
  | none => some st
  | some ht =>
    if st.local_height < (ht : ℤ) then
      match chain with
      | none => some st
      | some ch =>
        match verify_chain (read_file st.file) Ha ch with
        | some true =>
            match ch.foldlM save_header st with
            | some st2 => some { st2 with height := (ht : ℤ) }
            | none => none
        | some false => some st
        | none => none
    else some st

/-- Boolean test that the block heights along a chain are present and
strictly ascending. -/
def ascending : List Header → Bool
  | [] => true
  | [h] => h.block_height.isSome
  | h1 :: h2 :: rest =>
    match h1.block_height, h2.block_height with
    | some a, some b => decide (a < b) && ascending (h2 :: rest)
    | _, _ => false

/-- Signed 32-bit subtraction of two unsigned 32-bit values, as claim
C1 words the timestamp difference: reduce the difference mod 2^32 and
reinterpret values at or above 2^31 as negative. -/
def signedSub32 (a b : Nat) : ℤ :=
  let m : ℤ := ((a : ℤ) - (b : ℤ)) % 2 ^ 32
  if m < 2 ^ 31 then m else m - 2 ^ 32

/-- Clamp of the retarget timespan to [1209600 / 4, 1209600 * 4]. -/
def clampSpan (d : ℤ) : ℤ := min (max d (1209600 / 4)) (1209600 * 4)

/-- The new target exactly as claim C1 states it: truncating integer
division of prev_target times the clamped signed-32-bit timestamp
difference, capped at max_target.  Defined when both boundary headers
are present. -/
def claim_c1_target (read : Nat → Option Header) (e : Nat) : Option Nat :=
  match read ((e - 1) * 2016), read (e * 2016 - 1) with
  | some first, some last =>
      some (min maxTarget
        (bits_to_target_nat last.bits *
          (clampSpan (signedSub32 last.timestamp first.timestamp)).toNat /
          1209600))
  | _, _ => none

/-- Store with headers at the epoch-1 boundary whose timestamp difference
is exactly 2^31: a plain integer subtraction gives 2147483648 while a
signed 32-bit subtraction of the same unsigned values gives -2147483648,
so the two readings clamp to opposite ends of the allowed span. -/
def hdr_c1_first : Header := ⟨1, 0, 0, 0, 0x1d00ffff, 0, none⟩

/-- Last header of epoch 0 in the boundary store: timestamp 2^31. -/
def hdr_c1_last : Header := ⟨1, 0, 0, 2147483648, 0x1d00ffff, 0, none⟩

/-- read_header over the two-header boundary store. -/
def read_c1 : Nat → Option Header := fun n =>
  if n = 0 then some hdr_c1_first
  else if n = 2015 then some hdr_c1_last
  else none

/-- First header of epoch 0 in a store whose epoch-1 retarget produces a
target with non-zero low bytes (so the compact encoding truncates). -/
def hdr_c5_first : Header := ⟨1, 0, 0, 0, 0x1d00ffff, 0, none⟩

/-- Last header of epoch 0: timestamp 1209599 makes the clamped span
1209599, one second short of the full span. -/
def hdr_c5_last : Header := ⟨1, 0, 0, 1209599, 0x1d00ffff, 7, none⟩

/-- read_header over the epoch-boundary store for the chain example. -/
def read_c5 : Nat → Option Header := fun n =>
  if n = 0 then some hdr_c5_first
  else if n = 2015 then some hdr_c5_last
  else none

/-- The full-precision epoch-1 target of the store read_c5:
max_target * 1209599 / 1209600, whose compact encoding is 0x1d00fffe
and decodes back to a strictly smaller value. -/
def nt_c5 : Nat := 26959513003035705151796114938906907404139754549669783651147622520097

/-- Candidate header at height 2016 carrying the expected epoch bits. -/
def hdr_c5_new : Header := ⟨1, 42, 0, 0, 0x1d00fffe, 0, some 2016⟩

/-- Digest assignment under which the candidate hashes to nt_c5 - 1:
below the full-precision target but at or above the value decoded from
the compact bits. -/
def hash_c5 : List Nat → List Nat := fun s =>
  if s = header_to_bytes hdr_c5_new then toLE 32 (nt_c5 - 1) else toLE 32 42

/-- Stored predecessor for the chain-validation witness. -/
def hdr_w5_prev : Header := ⟨1, 0, 0, 0, 0x1d00ffff, 0, none⟩

/-- One-header store for the chain-validation witness. -/
def read_w5 : Nat → Option Header := fun n =>
  if n = 0 then some hdr_w5_prev else none

/-- Valid height-1 candidate for the chain-validation witness. -/
def hdr_w5 : Header := ⟨1, 7, 0, 0, 0x1d00ffff, 0, some 1⟩

/-- Constant digest function for the chain-validation witness. -/
def hash_w5 : List Nat → List Nat := fun _ => [7]

/-- Header record carrying a block_height, for the codec examples. -/
def hdr_c7 : Header := ⟨1, 2, 3, 4, 5, 6, some 5⟩

/-- The same record without block_height. -/
def hdr_w7 : Header := ⟨1, 2, 3, 4, 5, 6, none⟩

/-- Two records that agree on the six codec fields and differ in
block_height. -/
def hdr_w10a : Header := ⟨1, 2, 3, 4, 5, 6, some 9⟩

/-- Companion of hdr_w10a without block_height. -/
def hdr_w10b : Header := ⟨1, 2, 3, 4, 5, 6, none⟩

/-- Genesis-like stored header for the run-step witness. -/
def hdr_w6_g : Header := ⟨1, 0, 0, 0, 0x1d00ffff, 0, none⟩

/-- Initial verifier state: an 80-byte store holding hdr_w6_g. -/
def st_w6 : VState := ⟨header_to_bytes hdr_w6_g, 0, 0⟩

/-- Valid height-1 candidate for the run-step witness. -/
def hdr_w6 : Header := ⟨1, 7, 0, 0, 0x1d00ffff, 0, some 1⟩

/-- Constant digest function for the run-step witness. -/
def hash_w6 : List Nat → List Nat := fun _ => [7]

/-- Expected state after committing hdr_w6: 160-byte store, heights 1. -/
def st_w6x : VState := ⟨header_to_bytes hdr_w6_g ++ header_to_bytes hdr_w6, 1, 1⟩

lemma mod_of_sign_bit (bits : Nat) (h : bits &&& 0x00800000 ≠ 0) :
    0x800000 ≤ bits % 2 ^ 24 := by
  have h1 : bits &&& 2 ^ 23 = (bits.testBit 23).toNat * 2 ^ 23 :=
    Nat.and_two_pow bits 23
  have h2 : bits.testBit 23 = true := by
    by_contra hb
    rw [Bool.not_eq_true] at hb
    rw [hb] at h1
    exact h (by simpa using h1)
  rw [Nat.testBit_to_div_mod] at h2
  have h3 : bits / 2 ^ 23 % 2 = 1 := by simpa using h2
  omega

lemma lt_pow_byteLen : ∀ (fuel t : Nat), t < 256 ^ fuel → t < 256 ^ byteLen fuel t := by
  intro fuel
  induction fuel with
  | zero => intro t ht; simpa [byteLen] using ht
  | succ n ih =>
      intro t ht
      by_cases h0 : t = 0
      · subst h0; simp [byteLen]
      · rw [byteLen, if_neg h0]
        have hd : t / 256 < 256 ^ n := by
          rw [Nat.div_lt_iff_lt_mul (by norm_num)]
          calc t < 256 ^ (n + 1) := ht
            _ = 256 ^ n * 256 := by ring
        have ihh := ih (t / 256) hd
        have hmod : t % 256 < 256 := Nat.mod_lt _ (by norm_num)
        calc t = 256 * (t / 256) + t % 256 := (Nat.div_add_mod t 256).symm
          _ < 256 * (256 ^ byteLen n (t / 256)) := by omega
          _ = 256 ^ (byteLen n (t / 256) + 1) := by ring

lemma toLE_length : ∀ (n v : Nat), (toLE n v).length = n := by
  intro n
  induction n with
  | zero => intro v; simp [toLE]
  | succ m ih => intro v; simp [toLE, ih]

lemma fromLE_toLE : ∀ (n v : Nat), v < 256 ^ n → fromLE (toLE n v) = v := by
  intro n
  induction n with
  | zero => intro v hv; interval_cases v; simp [toLE, fromLE]
  | succ m ih =>
      intro v hv
      rw [toLE, fromLE]
      have hd : v / 256 < 256 ^ m := by
        rw [Nat.div_lt_iff_lt_mul (by norm_num)]
        calc v < 256 ^ (m + 1) := hv
          _ = 256 ^ m * 256 := by ring
      rw [ih (v / 256) hd]
      omega

lemma toLE_fromLE : ∀ (l : List Nat), (∀ x ∈ l, x < 256) →
    toLE l.length (fromLE l) = l := by
  intro l
  induction l with
  | nil => intro _; simp [toLE]
  | cons x rest ih =>
      intro hx
      have hx0 : x < 256 := hx x (by simp)
      rw [List.length_cons, toLE, fromLE]
      have h1 : (x + 256 * fromLE rest) % 256 = x := by omega
      have h2 : (x + 256 * fromLE rest) / 256 = fromLE rest := by omega
      rw [h1, h2, ih (fun y hy => hx y (by simp [hy]))]

lemma hex_to_int_some (l : List Nat) (h : l ≠ []) :
    hex_to_int l = some (fromLE l) := by
  simp [hex_to_int, List.isEmpty_iff, h]

lemma hex_to_int_nil : hex_to_int [] = none := by simp [hex_to_int]

lemma toLE_ne_nil (n v : Nat) (h : n ≠ 0) : toLE n v ≠ [] := by
  intro hc
  have := toLE_length n v
  rw [hc] at this
  simp at this
  omega

lemma slice_bytes (b : List Nat) (hx : ∀ x ∈ b, x < 256) (i : Nat) :
    ∀ x ∈ (b.drop i).take 4, x < 256 := by
  intro x hmem
  exact hx x (List.mem_of_mem_drop (List.mem_of_mem_take hmem))

lemma header_encode_decode (h : Header) (hwf : HeaderWF h) (hbh : h.block_height = none) :
    header_from_string (header_to_bytes h) = some h := by
  obtain ⟨v, p, m, ts, bi, no, bh⟩ := h
  obtain ⟨w1, w2, w3, w4, w5, w6⟩ := hwf
  simp only at w1 w2 w3 w4 w5 w6
  simp only at hbh
  subst hbh
  have hb4 : (256 : Nat) ^ 4 = 2 ^ 32 := by norm_num
  have hb32 : (256 : Nat) ^ 32 = 2 ^ 256 := by norm_num
  have e1 : (header_to_bytes ⟨v, p, m, ts, bi, no, none⟩).take 4 = toLE 4 v := by
    unfold header_to_bytes; exact List.take_left' (toLE_length 4 _)
  have d1 : (header_to_bytes ⟨v, p, m, ts, bi, no, none⟩).drop 4 = toLE 32 p ++
      (toLE 32 m ++ (toLE 4 ts ++ (toLE 4 bi ++ toLE 4 no))) := by
    unfold header_to_bytes
    exact List.drop_left' (toLE_length 4 _)
  have e2 : ((header_to_bytes ⟨v, p, m, ts, bi, no, none⟩).drop 4).take 32 = toLE 32 p := by
    rw [d1]; exact List.take_left' (toLE_length 32 _)
  have d36 : (header_to_bytes ⟨v, p, m, ts, bi, no, none⟩).drop 36 = toLE 32 m ++
      (toLE 4 ts ++ (toLE 4 bi ++ toLE 4 no)) := by
    have hd : ((header_to_bytes ⟨v, p, m, ts, bi, no, none⟩).drop 4).drop 32 =
        (header_to_bytes ⟨v, p, m, ts, bi, no, none⟩).drop 36 := by
      rw [List.drop_drop]
    rw [← hd, d1]
    exact List.drop_left' (toLE_length 32 _)
  have e3 : ((header_to_bytes ⟨v, p, m, ts, bi, no, none⟩).drop 36).take 32 = toLE 32 m := by
    rw [d36]; exact List.take_left' (toLE_length 32 _)
  have d68 : (header_to_bytes ⟨v, p, m, ts, bi, no, none⟩).drop 68 = toLE 4 ts ++
      (toLE 4 bi ++ toLE 4 no) := by
    have hd : ((header_to_bytes ⟨v, p, m, ts, bi, no, none⟩).drop 36).drop 32 =
        (header_to_bytes ⟨v, p, m, ts, bi, no, none⟩).drop 68 := by
      rw [List.drop_drop]
    rw [← hd, d36]
    exact List.drop_left' (toLE_length 32 _)
  have e4 : ((header_to_bytes ⟨v, p, m, ts, bi, no, none⟩).drop 68).take 4 = toLE 4 ts := by
    rw [d68]; exact List.take_left' (toLE_length 4 _)
  have d72 : (header_to_bytes ⟨v, p, m, ts, bi, no, none⟩).drop 72 = toLE 4 bi ++ toLE 4 no := by
    have hd : ((header_to_bytes ⟨v, p, m, ts, bi, no, none⟩).drop 68).drop 4 =
        (header_to_bytes ⟨v, p, m, ts, bi, no, none⟩).drop 72 := by
      rw [List.drop_drop]
    rw [← hd, d68]
    exact List.drop_left' (toLE_length 4 _)
  have e5 : ((header_to_bytes ⟨v, p, m, ts, bi, no, none⟩).drop 72).take 4 = toLE 4 bi := by
    rw [d72]; exact List.take_left' (toLE_length 4 _)
  have d76 : (header_to_bytes ⟨v, p, m, ts, bi, no, none⟩).drop 76 = toLE 4 no := by
    have hd : ((header_to_bytes ⟨v, p, m, ts, bi, no, none⟩).drop 72).drop 4 =
        (header_to_bytes ⟨v, p, m, ts, bi, no, none⟩).drop 76 := by
      rw [List.drop_drop]
    rw [← hd, d72]
    exact List.drop_left' (toLE_length 4 _)
  have e6 : ((header_to_bytes ⟨v, p, m, ts, bi, no, none⟩).drop 76).take 4 = toLE 4 no := by
    rw [d76]
    apply List.take_of_length_le
    rw [toLE_length]
  unfold header_from_string
  rw [e1, e2, e3, e4, e5, e6,
    hex_to_int_some _ (toLE_ne_nil 4 _ (by norm_num)),
    hex_to_int_some _ (toLE_ne_nil 4 _ (by norm_num)),
    hex_to_int_some _ (toLE_ne_nil 4 _ (by norm_num)),
    hex_to_int_some _ (toLE_ne_nil 4 _ (by norm_num)),
    fromLE_toLE 4 v (by omega), fromLE_toLE 32 p (by omega),
    fromLE_toLE 32 m (by omega), fromLE_toLE 4 ts (by omega),
    fromLE_toLE 4 bi (by omega), fromLE_toLE 4 no (by omega)]

lemma header_decode_encode (b : List Nat) (hlen : b.length = 80) (hx : ∀ x ∈ b, x < 256) :
    ∃ h : Header, header_from_string b = some h ∧ header_to_bytes h = b := by
  have ltake : ∀ i : Nat, i + 4 ≤ 80 → ((b.drop i).take 4).length = 4 := by
    intro i hi
    simp [List.length_take, List.length_drop, hlen]
    omega
  have ltake32 : ∀ i : Nat, i + 32 ≤ 80 → ((b.drop i).take 32).length = 32 := by
    intro i hi
    simp [List.length_take, List.length_drop, hlen]
    omega
  have hslice32 : ∀ i : Nat, ∀ x ∈ (b.drop i).take 32, x < 256 := by
    intro i x hmem
    exact hx x (List.mem_of_mem_drop (List.mem_of_mem_take hmem))
  have hslice0 : ∀ x ∈ b.take 4, x < 256 := by
    intro x hmem
    exact hx x (List.mem_of_mem_take hmem)
  have h0 : (b.take 4).length = 4 := by
    simp [List.length_take, hlen]
  refine ⟨{ version := fromLE (b.take 4)
            prev_block_hash := fromLE ((b.drop 4).take 32)
            merkle_root := fromLE ((b.drop 36).take 32)
            timestamp := fromLE ((b.drop 68).take 4)
            bits := fromLE ((b.drop 72).take 4)
            nonce := fromLE ((b.drop 76).take 4)
            block_height := none }, ?_, ?_⟩
  · unfold header_from_string
    rw [hex_to_int_some _ (by intro hc; have := congrArg List.length hc; rw [h0] at this; simp at this),
      hex_to_int_some _ (by intro hc; have := congrArg List.length hc; rw [ltake 68 (by norm_num)] at this; simp at this),
      hex_to_int_some _ (by intro hc; have := congrArg List.length hc; rw [ltake 72 (by norm_num)] at this; simp at this),
      hex_to_int_some _ (by intro hc; have := congrArg List.length hc; rw [ltake 76 (by norm_num)] at this; simp at this)]
  · unfold header_to_bytes
    simp only
    have t1 : toLE 4 (fromLE (b.take 4)) = b.take 4 := by
      have := toLE_fromLE (b.take 4) hslice0
      rwa [h0] at this
    have t2 : toLE 32 (fromLE ((b.drop 4).take 32)) = (b.drop 4).take 32 := by
      have := toLE_fromLE ((b.drop 4).take 32) (hslice32 4)
      rwa [ltake32 4 (by norm_num)] at this
    have t3 : toLE 32 (fromLE ((b.drop 36).take 32)) = (b.drop 36).take 32 := by
      have := toLE_fromLE ((b.drop 36).take 32) (hslice32 36)
      rwa [ltake32 36 (by norm_num)] at this
    have t4 : toLE 4 (fromLE ((b.drop 68).take 4)) = (b.drop 68).take 4 := by
      have := toLE_fromLE ((b.drop 68).take 4) (slice_bytes b hx 68)
      rwa [ltake 68 (by norm_num)] at this
    have t5 : toLE 4 (fromLE ((b.drop 72).take 4)) = (b.drop 72).take 4 := by
      have := toLE_fromLE ((b.drop 72).take 4) (slice_bytes b hx 72)
      rwa [ltake 72 (by norm_num)] at this
    have t6 : toLE 4 (fromLE ((b.drop 76).take 4)) = (b.drop 76).take 4 := by
      have := toLE_fromLE ((b.drop 76).take 4) (slice_bytes b hx 76)
      rwa [ltake 76 (by norm_num)] at this
    rw [t1, t2, t3, t4, t5, t6]
    have r76 : (b.drop 76).take 4 = b.drop 76 := by
      apply List.take_of_length_le
      simp [List.length_drop, hlen]
    have r72 : (b.drop 72).take 4 ++ b.drop 76 = b.drop 72 := by
      have hdd : (b.drop 72).drop 4 = b.drop 76 := by rw [List.drop_drop]
      rw [← hdd]
      exact List.take_append_drop 4 (b.drop 72)
    have r68 : (b.drop 68).take 4 ++ b.drop 72 = b.drop 68 := by
      have hdd : (b.drop 68).drop 4 = b.drop 72 := by rw [List.drop_drop]
      rw [← hdd]
      exact List.take_append_drop 4 (b.drop 68)
    have r36 : (b.drop 36).take 32 ++ b.drop 68 = b.drop 36 := by
      have hdd : (b.drop 36).drop 32 = b.drop 68 := by rw [List.drop_drop]
      rw [← hdd]
      exact List.take_append_drop 32 (b.drop 36)
    have r4 : (b.drop 4).take 32 ++ b.drop 36 = b.drop 4 := by
      have hdd : (b.drop 4).drop 32 = b.drop 36 := by rw [List.drop_drop]
      rw [← hdd]
      exact List.take_append_drop 32 (b.drop 4)
    rw [r76]
    simp only [List.append_assoc]
    rw [r72, r68, r36, r4]
    exact List.take_append_drop 4 b

lemma verify_chain_go_iff (read : Nat → Option Header) (Ha : List Nat → List Nat) :
    ∀ (l : List Header) (prev : Header),
      verify_chain_go read Ha prev l = some true ↔ chain_ok read Ha prev l := by
  intro l
  induction l with
  | nil => intro prev; simp [verify_chain_go, chain_ok]
  | cons h rest ih =>
      intro prev
      simp only [verify_chain_go, chain_ok]
      split
      case _ heq => simp [heq]
      case _ ht heq =>
        split
        case _ heq2 => simp [heq, heq2]
        case _ bt bits target heq2 =>
          by_cases hcond : hash_header_val Ha prev = h.prev_block_hash ∧
              bits = h.bits ∧ hash_header_val Ha h < target
          · rw [if_pos hcond, ih h]
            constructor
            · intro hok
              exact ⟨ht, bits, target, heq, heq2, hcond.1, hcond.2.1.symm,
                hcond.2.2, hok⟩
            · rintro ⟨ht1, b1, t1, hbh1, hgt1, hlink, hbits, hlt, hok⟩
              exact hok
          · rw [if_neg hcond]
            constructor
            · intro hfalse
              exact absurd hfalse (by simp)
            · rintro ⟨ht1, b1, t1, hbh1, hgt1, hlink, hbits, hlt, hok⟩
              rw [heq, Option.some.injEq] at hbh1
              subst hbh1
              rw [heq2, Option.some.injEq, Prod.mk.injEq] at hgt1
              obtain ⟨hb1, ht1e⟩ := hgt1
              subst hb1; subst ht1e
              exact (hcond ⟨hlink, hbits.symm, hlt⟩).elim

/-- C1 (amended): for an epoch index e > 0 with headers stored at
heights 2016*(e-1) and 2016*e-1, whenever get_target returns, the
returned target equals min(max_target, bits_to_target(last.bits) *
clamp(actual, 1209600/4, 1209600*4) / 1209600) with truncating integer
division, where actual is the PLAIN arbitrary-precision integer
subtraction last.timestamp - first.timestamp (the code does not reduce
it to signed 32 bits), and the returned bits are the compact encoding
of that target. -/
theorem claim_C1_amended (read : Nat → Option Header) (e : Nat)
    (first last : Header) (b t : Nat) (he : 0 < e)
    (hf : read ((e - 1) * 2016) = some first)
    (hl : read (e * 2016 - 1) = some last)
    (hgt : get_target read e = some (b, t)) :
    t = min maxTarget (bits_to_target_nat last.bits *
        (clampSpan ((last.timestamp : ℤ) - (first.timestamp : ℤ))).toNat /
        1209600) ∧
    target_to_bits t = some b := by
  simp only [get_target] at hgt
  rw [if_neg (by omega)] at hgt
  split at hgt
  case _ f l heq1 heq2 =>
    rw [hf, Option.some.injEq] at heq1
    rw [hl, Option.some.injEq] at heq2
    subst heq1; subst heq2
    rw [show min (max ((last.timestamp : ℤ) - (first.timestamp : ℤ))
          ((14 * 24 * 60 * 60 : ℤ) / 4)) ((14 * 24 * 60 * 60 : ℤ) * 4) =
        clampSpan ((last.timestamp : ℤ) - (first.timestamp : ℤ)) by
      unfold clampSpan; norm_num] at hgt
    by_cases h3 : last.bits / (256 * 256 * 256) < 3
    · rw [if_pos h3] at hgt; exact absurd hgt (by simp)
    · rw [if_neg h3] at hgt
      split at hgt
      case _ nb htb =>
        simp only [Option.some.injEq, Prod.mk.injEq] at hgt
        obtain ⟨hgb, hgtv⟩ := hgt
        subst hgb; subst hgtv
        exact ⟨rfl, htb⟩
      case _ => exact absurd hgt (by simp)
  case _ => exact absurd hgt (by simp)

set_option maxRecDepth 4000 in
/-- C1 counterexample: in the store read_c1 the timestamp difference is
2^31, so the code (plain subtraction, clamped up to 4838400) returns
max_target, while the claim as stated (signed 32-bit subtraction giving
-2^31, clamped up to 302400) prescribes max_target / 4. -/
theorem claim_C1_counterexample :
    (get_target read_c1 1).map Prod.snd = some maxTarget ∧
    claim_c1_target read_c1 1 = some (maxTarget / 4) ∧
    (get_target read_c1 1).map Prod.snd ≠ claim_c1_target read_c1 1 := by
  decide

set_option maxRecDepth 4000 in
/-- C1 witness: the amended theorem applied to the concrete store
read_c1 at epoch 1. -/
theorem claim_C1_witness :
    (0 < 1 ∧ read_c1 ((1 - 1) * 2016) = some hdr_c1_first ∧
      read_c1 (1 * 2016 - 1) = some hdr_c1_last ∧
      get_target read_c1 1 = some (0x1d00ffff, maxTarget)) ∧
    (maxTarget = min maxTarget (bits_to_target_nat hdr_c1_last.bits *
        (clampSpan ((hdr_c1_last.timestamp : ℤ) -
          (hdr_c1_first.timestamp : ℤ))).toNat / 1209600) ∧
      target_to_bits maxTarget = some 0x1d00ffff) :=
  ⟨⟨Nat.one_pos, by decide, by decide, by decide⟩,
    claim_C1_amended read_c1 1 hdr_c1_first hdr_c1_last 0x1d00ffff maxTarget
      Nat.one_pos (by decide) (by decide) (by decide)⟩

/-- C2: for every 32-bit bits value the bits-to-target computation of
get_target equals the legacy mapping exactly as the spec words it:
a = bits mod 2^24, multiplied by 256 when a < 0x8000, times
2 ^ (8 * (floor (bits / 2^24) - 3)). -/
theorem claim_C2 (bits : Nat) (hb : bits < 2 ^ 32) :
    bits_to_target_code bits = bits_to_target_legacy_spec bits := by
  simp only [bits_to_target_code, bits_to_target_legacy_spec]
  have h24 : (256 * 256 * 256 : Nat) = 2 ^ 24 := by norm_num
  rw [h24]
  by_cases h3 : 3 ≤ bits / 2 ^ 24
  · rw [if_pos h3]
    have he : (8 : ℤ) * (((bits / 2 ^ 24 : Nat) : ℤ) - 3) =
        ((8 * (bits / 2 ^ 24 - 3) : Nat) : ℤ) := by omega
    rw [he, zpow_natCast]
    push_cast
    ring
  · rw [if_neg h3]
    have he : (8 : ℤ) * (((bits / 2 ^ 24 : Nat) : ℤ) - 3) =
        -((8 * (3 - bits / 2 ^ 24) : Nat) : ℤ) := by omega
    rw [he, zpow_neg, zpow_natCast]
    rw [div_eq_mul_inv]
    push_cast
    ring

/-- C2 witness: the legacy-mapping equality at the genesis bits value. -/
theorem claim_C2_witness :
    0x1d00ffff < 2 ^ 32 ∧
    bits_to_target_code 0x1d00ffff = bits_to_target_legacy_spec 0x1d00ffff :=
  ⟨by norm_num, claim_C2 0x1d00ffff (by norm_num)⟩

/-- C3 (amended): the bits-to-target computation of get_target performs
no sign-bit validity check and no cap at 2^256 - 1: on every bits value
whose 0x00800000 bit is set it simply returns the legacy value
(bits mod 2^24) * 2 ^ (8 * (floor (bits / 2^24) - 3)) instead of
failing with NegativeTarget. -/
theorem claim_C3_amended (bits : Nat) (hb : bits < 2 ^ 32)
    (hs : bits &&& 0x00800000 ≠ 0) :
    bits_to_target_code bits =
      ((bits % 2 ^ 24 : Nat) : ℚ) *
        (2 : ℚ) ^ ((8 : ℤ) * (((bits / 2 ^ 24 : Nat) : ℤ) - 3)) := by
  have ha := mod_of_sign_bit bits hs
  simp only [bits_to_target_code]
  have h24 : (256 * 256 * 256 : Nat) = 2 ^ 24 := by norm_num
  rw [h24]
  have hno : ¬ (bits % 2 ^ 24 < 0x8000) := by omega
  by_cases h3 : 3 ≤ bits / 2 ^ 24
  · rw [if_pos h3, if_neg hno]
    have he : (8 : ℤ) * (((bits / 2 ^ 24 : Nat) : ℤ) - 3) =
        ((8 * (bits / 2 ^ 24 - 3) : Nat) : ℤ) := by omega
    rw [he, zpow_natCast]
    push_cast
    ring
  · rw [if_neg h3, if_neg hno]
    have he : (8 : ℤ) * (((bits / 2 ^ 24 : Nat) : ℤ) - 3) =
        -((8 * (3 - bits / 2 ^ 24) : Nat) : ℤ) := by omega
    rw [he, zpow_neg, zpow_natCast]
    rw [div_eq_mul_inv]
    push_cast
    ring

set_option maxRecDepth 4000 in
/-- C3 counterexample: at bits 0x04800000 the canonical operation the
claim describes reports NegativeTarget (none), yet the code returns the
target 0x80000000; and at bits 0x22008000 the code returns a target
strictly above 2^256 - 1, so no cap is applied. -/
theorem claim_C3_counterexample :
    bits_to_target_canonical_spec 0x04800000 = none ∧
    bits_to_target_code 0x04800000 = (0x80000000 : ℚ) ∧
    ¬ bits_to_target_code 0x22008000 ≤
      (115792089237316195423570985008687907853269984665640564039457584007913129639935 : ℚ) := by
  refine ⟨?_, by decide, by decide⟩
  simp only [bits_to_target_canonical_spec]
  rw [if_pos (by decide)]

/-- C3 witness: the amended theorem applied at bits 0x04800000. -/
theorem claim_C3_witness :
    (0x04800000 < 2 ^ 32 ∧ (0x04800000 : Nat) &&& 0x00800000 ≠ 0) ∧
    bits_to_target_code 0x04800000 =
      ((0x04800000 % 2 ^ 24 : Nat) : ℚ) *
        (2 : ℚ) ^ ((8 : ℤ) * (((0x04800000 / 2 ^ 24 : Nat) : ℤ) - 3)) :=
  ⟨⟨by norm_num, by decide⟩,
    claim_C3_amended 0x04800000 (by norm_num) (by decide)⟩

/-- C4 (amended): the target-to-bits conversion shifts the mantissa
right by 8 bits and increments the exponent only when the leading three
bytes STRICTLY exceed 0x800000, so the mantissa of the returned bits
never exceeds 0x800000 but can equal it, in which case the sign bit is
set. -/
theorem claim_C4_amended (t b : Nat) (hlt : t < 2 ^ 256)
    (hb : target_to_bits t = some b) : b % 2 ^ 24 ≤ 0x800000 := by
  simp only [target_to_bits] at hb
  by_cases h0 : t % 2 ^ 248 = 0
  · rw [if_pos h0] at hb; exact absurd hb (by simp)
  · rw [if_neg h0] at hb
    set tl := t % 2 ^ 248 with htl
    set k := byteLen 31 tl with hk
    have htl31 : tl < 256 ^ 31 := by
      have := Nat.mod_lt t (show 0 < 2 ^ 248 by positivity)
      calc tl < 2 ^ 248 := this
        _ = 256 ^ 31 := by norm_num
    have hbound : tl < 256 ^ k := lt_pow_byteLen 31 tl htl31
    set c := if 3 ≤ k then tl / 256 ^ (k - 3) else tl with hcdef
    have hc : c < 2 ^ 24 := by
      rw [hcdef]
      by_cases h3 : 3 ≤ k
      · rw [if_pos h3]
        rw [Nat.div_lt_iff_lt_mul (by positivity)]
        calc tl < 256 ^ k := hbound
          _ = 2 ^ 24 * 256 ^ (k - 3) := by
            rw [show (256 : Nat) ^ k = 256 ^ (3 + (k - 3)) by congr 1; omega,
              pow_add]
            norm_num
      · rw [if_neg h3]
        calc tl < 256 ^ k := hbound
          _ ≤ 256 ^ 2 := Nat.pow_le_pow_right (by norm_num) (by omega)
          _ < 2 ^ 24 := by norm_num
    by_cases hsh : 0x800000 < c
    · rw [if_pos hsh] at hb
      have hb2 : c / 256 + 2 ^ 24 * (k + 1) = b := by
        have hbb := hb
        simp only [Option.some.injEq] at hbb
        exact hbb
      rw [← hb2, Nat.add_mul_mod_self_left]
      have : c / 256 < 0x800000 := by omega
      omega
    · rw [if_neg hsh] at hb
      have hb2 : c + 2 ^ 24 * k = b := by
        have hbb := hb
        simp only [Option.some.injEq] at hbb
        exact hbb
      rw [← hb2, Nat.add_mul_mod_self_left]
      omega

set_option maxRecDepth 4000 in
/-- C4 counterexample: the target 0x800000 has leading three bytes
exactly 0x800000, which exceeds 0x7fffff, yet the code does not shift:
the returned bits are 0x03800000, whose mantissa is 0x800000 with the
sign bit set. -/
theorem claim_C4_counterexample :
    target_to_bits 0x800000 = some 0x03800000 ∧
    0x03800000 % 2 ^ 24 = 0x800000 := by decide

set_option maxRecDepth 4000 in
/-- C4 witness: the amended bound applied to the conversion of
max_target. -/
theorem claim_C4_witness :
    (maxTarget < 2 ^ 256 ∧ target_to_bits maxTarget = some 0x1d00ffff) ∧
    0x1d00ffff % 2 ^ 24 ≤ 0x800000 :=
  ⟨⟨by decide, by decide⟩,
    claim_C4_amended maxTarget 0x1d00ffff (by decide) (by decide)⟩

/-- C5 (amended): for a non-empty chain whose first height is positive,
whose predecessor is stored, verify_chain returns True exactly when
every header in the chain satisfies, threading the predecessor: the
retarget computation for its epoch succeeds, the link hash matches, the
bits equal the expected epoch bits, and the hash value is strictly
below the FULL-PRECISION expected epoch target returned by get_target
(not the coarser value decoded from the header bits, as the claim
stated). -/
theorem claim_C5_amended (read : Nat → Option Header)
    (Ha : List Nat → List Nat) (h0 : Header) (rest : List Header) (ht : Nat)
    (prev : Header) (hbh : h0.block_height = some ht) (hpos : 0 < ht)
    (hprev : read (ht - 1) = some prev) :
    verify_chain read Ha (h0 :: rest) = some true ↔
      chain_ok read Ha prev (h0 :: rest) := by
  unfold verify_chain
  simp only [hbh]
  rw [if_neg (by omega)]
  simp only [hprev]
  exact verify_chain_go_iff read Ha (h0 :: rest) prev

set_option maxRecDepth 4000 in
/-- C5 counterexample: in the store read_c5 the epoch-1 target has
non-zero low bytes, so its compact encoding decodes to a strictly
smaller value; under the digest assignment hash_c5 the candidate header
hashes into the gap, the code accepts the chain, yet the claim
conditions (hash below the target decoded from the header bits) fail. -/
theorem claim_C5_counterexample :
    verify_chain read_c5 hash_c5 [hdr_c5_new] = some true ∧
    claim_c5_check read_c5 hash_c5 hdr_c5_last [hdr_c5_new] = false := by
  decide

set_option maxRecDepth 4000 in
/-- C5 witness: the amended equivalence applied to a one-element chain
over the one-header store read_w5. -/
theorem claim_C5_witness :
    (hdr_w5.block_height = some 1 ∧ 0 < 1 ∧ read_w5 (1 - 1) = some hdr_w5_prev) ∧
    (verify_chain read_w5 hash_w5 [hdr_w5] = some true ↔
      chain_ok read_w5 hash_w5 hdr_w5_prev [hdr_w5]) :=
  ⟨⟨rfl, Nat.one_pos, by decide⟩,
    claim_C5_amended read_w5 hash_w5 hdr_w5 [] 1 hdr_w5_prev rfl Nat.one_pos
      (by decide)⟩

/-- C6: for a candidate above the local height with an assembled
(height-ascending) chain, one iteration of the run loop leaves the
store file byte-identical whenever verify_chain does not succeed, and
on success applies save_header to every chain element in list (hence
ascending-height) order and exposes the candidate height as the tip. -/
theorem claim_C6 (Ha : List Nat → List Nat) (st : VState) (cand : Header)
    (ch : List Header) (ht : Nat)
    (hbh : cand.block_height = some ht)
    (hgt : st.local_height < (ht : ℤ))
    (hasc : ascending ch = true) :
    (verify_chain (read_file st.file) Ha ch ≠ some true →
      ∀ st2 : VState, run_step Ha st cand (some ch) = some st2 →
        st2.file = st.file) ∧
    (∀ st2 : VState, verify_chain (read_file st.file) Ha ch = some true →
      ch.foldlM save_header st = some st2 →
      run_step Ha st cand (some ch) = some { st2 with height := (ht : ℤ) }) := by
  constructor
  · intro hne st2 hrun
    unfold run_step at hrun
    simp only [hbh] at hrun
    rw [if_pos hgt] at hrun
    cases hv : verify_chain (read_file st.file) Ha ch with
    | none =>
        simp only [hv] at hrun
        exact absurd hrun (by simp)
    | some bb =>
        cases bb with
        | true => exact absurd hv hne
        | false =>
            simp only [hv] at hrun
            rw [Option.some.injEq] at hrun
            rw [← hrun]
  · intro st2 hv hfold
    unfold run_step
    simp only [hbh]
    rw [if_pos hgt]
    simp only [hv, hfold]

set_option maxRecDepth 4000 in
/-- C6 witness: one run-loop iteration over an 80-byte store committing
a valid height-1 candidate, applied through the theorem. -/
theorem claim_C6_witness :
    (hdr_w6.block_height = some 1 ∧ st_w6.local_height < ((1 : Nat) : ℤ) ∧
      ascending [hdr_w6] = true ∧
      verify_chain (read_file st_w6.file) hash_w6 [hdr_w6] = some true ∧
      [hdr_w6].foldlM save_header st_w6 = some st_w6x) ∧
    run_step hash_w6 st_w6 hdr_w6 (some [hdr_w6]) =
      some { st_w6x with height := ((1 : Nat) : ℤ) } :=
  ⟨⟨rfl, by decide, by decide, by decide, by decide⟩,
    (claim_C6 hash_w6 st_w6 hdr_w6 [hdr_w6] 1 rfl (by decide) (by decide)).2
      st_w6x (by decide) (by decide)⟩

/-- C7 (amended): the codec round-trips on the six serialized fields:
decoding the 80-byte encoding of a well-formed record WITHOUT a
block_height entry returns it unchanged (a record carrying block_height
comes back without it, see the counterexample), and every 80-byte
string is the encoding of its own decoding. -/
theorem claim_C7_amended :
    (∀ h : Header, HeaderWF h → h.block_height = none →
      header_from_string (header_to_bytes h) = some h) ∧
    (∀ b : List Nat, b.length = 80 → (∀ x ∈ b, x < 256) →
      ∃ h : Header, header_from_string b = some h ∧ header_to_bytes h = b) :=
  ⟨header_encode_decode, header_decode_encode⟩

set_option maxRecDepth 4000 in
/-- C7 counterexample: a record carrying block_height is not recovered
by decode after encode, because header_from_string never sets
block_height. -/
theorem claim_C7_counterexample :
    header_from_string (header_to_bytes hdr_c7) ≠ some hdr_c7 := by
  decide

set_option maxRecDepth 4000 in
/-- C7 witness: both round-trip directions applied to the concrete
record hdr_w7 and its 80-byte encoding. -/
theorem claim_C7_witness :
    (HeaderWF hdr_w7 ∧ hdr_w7.block_height = none ∧
      header_from_string (header_to_bytes hdr_w7) = some hdr_w7) ∧
    ((header_to_bytes hdr_w7).length = 80 ∧
      (∀ x ∈ header_to_bytes hdr_w7, x < 256) ∧
      ∃ h : Header, header_from_string (header_to_bytes hdr_w7) = some h ∧
        header_to_bytes h = header_to_bytes hdr_w7) :=
  ⟨⟨by decide, rfl, claim_C7_amended.1 hdr_w7 (by decide) rfl⟩,
    ⟨by decide, by decide,
      claim_C7_amended.2 (header_to_bytes hdr_w7) (by decide) (by decide)⟩⟩

/-- C8 (amended): header_from_string performs no length check and
raises no MalformedHeader: it succeeds exactly on inputs of at least 77
bytes (reading truncated fields below 80 bytes and ignoring bytes past
80) and fails, with an uncaught error, only on inputs of at most 76
bytes. -/
theorem claim_C8_amended (s : List Nat) :
    (header_from_string s).isSome = true ↔ 77 ≤ s.length := by
  have hemp : ∀ i : Nat, s.length ≤ i → (s.drop i).take 4 = [] := by
    intro i hi
    rw [← List.length_eq_zero, List.length_take, List.length_drop]
    omega
  have hne : ∀ i : Nat, i + 1 ≤ s.length → (s.drop i).take 4 ≠ [] := by
    intro i hi hc
    have hlc := congrArg List.length hc
    rw [List.length_take, List.length_drop, List.length_nil] at hlc
    omega
  have hne0 : 1 ≤ s.length → s.take 4 ≠ [] := by
    intro hi hc
    have hlc := congrArg List.length hc
    rw [List.length_take, List.length_nil] at hlc
    omega
  unfold header_from_string
  rcases Nat.lt_or_ge s.length 1 with h1 | h1
  · have hs : s.take 4 = [] := by
      have hs0 : s = [] := List.length_eq_zero.mp (by omega)
      rw [hs0]
      simp
    rw [show hex_to_int (s.take 4) = none by rw [hs]; exact hex_to_int_nil]
    simp
    omega
  · rcases Nat.lt_or_ge s.length 69 with h2 | h2
    · rw [hex_to_int_some _ (hne0 h1),
        show hex_to_int ((s.drop 68).take 4) = none by
          rw [hemp 68 (by omega)]; exact hex_to_int_nil]
      simp
      omega
    · rcases Nat.lt_or_ge s.length 73 with h3 | h3
      · rw [hex_to_int_some _ (hne0 h1), hex_to_int_some _ (hne 68 (by omega)),
          show hex_to_int ((s.drop 72).take 4) = none by
            rw [hemp 72 (by omega)]; exact hex_to_int_nil]
        simp
        omega
      · rcases Nat.lt_or_ge s.length 77 with h4 | h4
        · rw [hex_to_int_some _ (hne0 h1), hex_to_int_some _ (hne 68 (by omega)),
            hex_to_int_some _ (hne 72 (by omega)),
            show hex_to_int ((s.drop 76).take 4) = none by
              rw [hemp 76 (by omega)]; exact hex_to_int_nil]
          simp
          omega
        · rw [hex_to_int_some _ (hne0 h1), hex_to_int_some _ (hne 68 (by omega)),
            hex_to_int_some _ (hne 72 (by omega)),
            hex_to_int_some _ (hne 76 (by omega))]
          simp
          omega

set_option maxRecDepth 4000 in
/-- C8 counterexample: decoding succeeds on an 81-byte input and on a
78-byte input, both of length different from 80, instead of failing
with MalformedHeader. -/
theorem claim_C8_counterexample :
    (header_from_string (List.replicate 81 3)).isSome = true ∧
    (header_from_string (List.replicate 78 3)).isSome = true := by decide

/-- C9: after set_local_height runs over an existing store file of n
bytes, the exposed local tip height equals n / 80 - 1 (Python floor
division), and in particular equals -1 for an empty store. -/
theorem claim_C9 :
    (∀ st : VState, (set_local_height st).local_height =
      ((st.file.length / 80 : Nat) : ℤ) - 1) ∧
    (set_local_height { file := [], local_height := 0, height := 0 }).local_height
      = -1 := by
  constructor
  · intro st
    simp only [set_local_height]
    by_cases hd : st.local_height ≠ ((st.file.length / 80 : Nat) : ℤ) - 1
    · rw [if_pos hd]
    · rw [if_neg hd]
      push_neg at hd
      exact hd
  · decide

/-- C10: the 80-byte serialization and therefore the header hash depend
only on the six codec fields: two records agreeing on version,
prev_block_hash, merkle_root, timestamp, bits and nonce serialize
identically and hash identically under every digest function, whatever
their block_height entries. -/
theorem claim_C10 (h1 h2 : Header) (hv : h1.version = h2.version)
    (hp : h1.prev_block_hash = h2.prev_block_hash)
    (hm : h1.merkle_root = h2.merkle_root) (ht : h1.timestamp = h2.timestamp)
    (hb : h1.bits = h2.bits) (hn : h1.nonce = h2.nonce) :
    header_to_bytes h1 = header_to_bytes h2 ∧
    ∀ Ha : List Nat → List Nat, hash_header_val Ha h1 = hash_header_val Ha h2 := by
  have henc : header_to_bytes h1 = header_to_bytes h2 := by
    unfold header_to_bytes
    rw [hv, hp, hm, ht, hb, hn]
  exact ⟨henc, fun Ha => by unfold hash_header_val; rw [henc]⟩

/-- C10 witness: two records differing only in block_height serialize
and hash identically, applied through the theorem. -/
theorem claim_C10_witness :
    (hdr_w10a.version = hdr_w10b.version ∧
      hdr_w10a.prev_block_hash = hdr_w10b.prev_block_hash ∧
      hdr_w10a.merkle_root = hdr_w10b.merkle_root ∧
      hdr_w10a.timestamp = hdr_w10b.timestamp ∧
      hdr_w10a.bits = hdr_w10b.bits ∧ hdr_w10a.nonce = hdr_w10b.nonce ∧
      hdr_w10a.block_height ≠ hdr_w10b.block_height) ∧
    (header_to_bytes hdr_w10a = header_to_bytes hdr_w10b ∧
      ∀ Ha : List Nat → List Nat,
        hash_header_val Ha hdr_w10a = hash_header_val Ha hdr_w10b) :=
  ⟨⟨rfl, rfl, rfl, rfl, rfl, rfl, by decide⟩,
    claim_C10 hdr_w10a hdr_w10b rfl rfl rfl rfl rfl rfl⟩
